import Mathlib

/-!
A shallow embedding of the Wisp repository's single source file
`src/website/src/registry/components/_write_files.py` (the "Materializer"):
a 19-line script that reads a JSON manifest `_files_data.json` mapping
filenames to base64-encoded UTF-8 text, writes each decoded payload next to
itself, prints a per-file newline count, deletes the manifest and then its
own file, and prints a final confirmation line.

Text content is modelled as lists of Unicode code points (`List Nat`), raw
file content as lists of bytes (`List Nat`, each below 256).  `b64decodePy`
models Python's `base64.b64decode` applied to a `str` argument (the implicit
ASCII check, the non-strict discarding of characters outside the alphabet,
and padding handling); `utf8Decode` models `bytes.decode` for UTF-8 (strict:
it rejects overlong forms, surrogates, stray continuation bytes and code
points above U+10FFFF, exactly the sequences CPython rejects); the
filesystem is a set of directories plus an association list from path
strings to file values, and `run` is the straight-line body of the script.
-/

namespace Wisp

/-- ASCII code of the base64 alphabet character for a 6-bit group, following
the standard base64 alphabet used by Python's base64 module. -/
def b64enc (v : Nat) : Nat :=
  if v < 26 then 65 + v
  else if v < 52 then 71 + v
  else if v < 62 then v - 4
  else if v = 62 then 43
  else 47

/-- Partial inverse of the base64 alphabet (ASCII code to 6-bit group). -/
def b64dec (c : Nat) : Option Nat :=
  if 65 ≤ c ∧ c ≤ 90 then some (c - 65)
  else if 97 ≤ c ∧ c ≤ 122 then some (c - 71)
  else if 48 ≤ c ∧ c ≤ 57 then some (c + 4)
  else if c = 43 then some 62
  else if c = 47 then some 63
  else none

/-- Decode a base64 character stream (already restricted to alphabet
characters and the padding character 61, the ASCII code of the equals sign)
quad by quad, as `binascii.a2b_base64` does: every complete quad of alphabet
characters yields three bytes, a final quad may carry one or two padding
characters, and anything else is a decoding error (`none`). -/
def decQuads : List Nat → Option (List Nat)
  | [] => some []
  | c1 :: c2 :: c3 :: c4 :: rest =>
    (b64dec c1).bind fun v1 =>
    (b64dec c2).bind fun v2 =>
    if c3 = 61 then
      if c4 = 61 ∧ rest = [] then some [v1 * 4 + v2 / 16] else none
    else
      (b64dec c3).bind fun v3 =>
      if c4 = 61 then
        if rest = [] then some [v1 * 4 + v2 / 16, v2 % 16 * 16 + v3 / 4] else none
      else
        (b64dec c4).bind fun v4 =>
        (decQuads rest).map fun bs =>
          (v1 * 4 + v2 / 16) :: (v2 % 16 * 16 + v3 / 4) :: (v3 % 4 * 64 + v4) :: bs
  | _ => none

/-- Model of Python's `base64.b64decode` on a `str` argument: the string is
first encoded as ASCII (any code point of 128 or above raises), characters
outside the alphabet and padding set are discarded (the default
non-validating mode), and the remainder is decoded quad by quad. -/
def b64decodePy (s : List Nat) : Option (List Nat) :=
  if ∀ c ∈ s, c < 128 then
    decQuads (s.filter fun c => (b64dec c).isSome || c == 61)
  else none

/-- Standard base64 encoding of a byte list (the output alphabet characters
are ASCII codes), used to state the round-trip property. -/
def b64encode : List Nat → List Nat
  | b1 :: b2 :: b3 :: rest =>
    b64enc (b1 / 4) :: b64enc (b1 % 4 * 16 + b2 / 16) ::
      b64enc (b2 % 16 * 4 + b3 / 64) :: b64enc (b3 % 64) :: b64encode rest
  | [b1, b2] => [b64enc (b1 / 4), b64enc (b1 % 4 * 16 + b2 / 16), b64enc (b2 % 16 * 4), 61]
  | [b1] => [b64enc (b1 / 4), b64enc (b1 % 4 * 16), 61, 61]
  | [] => []

/-- A Unicode scalar value: below U+110000 and not a surrogate. -/
def ValidCp (n : Nat) : Prop := n < 1114112 ∧ ¬(55296 ≤ n ∧ n < 57344)

instance decidableValidCp (n : Nat) : Decidable (ValidCp n) :=
  inferInstanceAs (Decidable (n < 1114112 ∧ ¬(55296 ≤ n ∧ n < 57344)))

/-- UTF-8 encoding of one code point (1 to 4 bytes). -/
def utf8EncodeCp (n : Nat) : List Nat :=
  if n < 128 then [n]
  else if n < 2048 then [192 + n / 64, 128 + n % 64]
  else if n < 65536 then [224 + n / 4096, 128 + n / 64 % 64, 128 + n % 64]
  else [240 + n / 262144, 128 + n / 4096 % 64, 128 + n / 64 % 64, 128 + n % 64]

/-- UTF-8 encoding of a code point sequence; this is what CPython's text-mode
file write stores on disk for a given string. -/
def utf8Encode : List Nat → List Nat
  | [] => []
  | n :: rest => utf8EncodeCp n ++ utf8Encode rest

/-- Strict UTF-8 decoding of a byte list into code points, following
CPython's decoder: two-byte sequences need a lead in 194..223, three-byte
sequences exclude overlong forms (lead 224 forces a second byte of at least
160) and surrogates (lead 237 forces a second byte below 160), four-byte
sequences exclude overlong forms (lead 240 forces a second byte of at least
144) and anything above U+10FFFF (lead 244 forces a second byte below 144);
every continuation byte must lie in 128..191. -/
def utf8Decode : List Nat → Option (List Nat)
  | [] => some []
  | b1 :: rest =>
    if b1 < 128 then Option.map (fun t => b1 :: t) (utf8Decode rest)
    else if b1 < 194 then none
    else
      match rest with
      | [] => none
      | b2 :: r2 =>
        if b1 < 224 then
          if 128 ≤ b2 ∧ b2 < 192 then
            Option.map (fun t => ((b1 - 192) * 64 + (b2 - 128)) :: t) (utf8Decode r2)
          else none
        else
          match r2 with
          | [] => none
          | b3 :: r3 =>
            if b1 < 240 then
              if 128 ≤ b2 ∧ b2 < 192 ∧ ¬(b1 = 224 ∧ b2 < 160) ∧ ¬(b1 = 237 ∧ 160 ≤ b2) ∧
                  128 ≤ b3 ∧ b3 < 192 then
                Option.map (fun t => ((b1 - 224) * 4096 + (b2 - 128) * 64 + (b3 - 128)) :: t)
                  (utf8Decode r3)
              else none
            else
              match r3 with
              | [] => none
              | b4 :: r4 =>
                if b1 < 245 then
                  if 128 ≤ b2 ∧ b2 < 192 ∧ ¬(b1 = 240 ∧ b2 < 144) ∧ ¬(b1 = 244 ∧ 144 ≤ b2) ∧
                      128 ≤ b3 ∧ b3 < 192 ∧ 128 ≤ b4 ∧ b4 < 192 then
                    Option.map
                      (fun t =>
                        ((b1 - 240) * 262144 + (b2 - 128) * 4096 + (b3 - 128) * 64 +
                          (b4 - 128)) :: t)
                      (utf8Decode r4)
                  else none
                else none

/-- The decode pipeline the script applies to one manifest value:
`base64.b64decode(value).decode (UTF-8)`. -/
def decodeValue (v : List Nat) : Option (List Nat) :=
  match b64decodePy v with
  | none => none
  | some bs => utf8Decode bs

/-- Content of a file on disk.  An ordinary file holds raw bytes; the
manifest file holds a flat JSON object whose parse result (a mapping from
filename strings to base64 value strings, values as code-point lists, in
insertion order as preserved by both JSON objects read with `json.loads`
and Python dicts) is modelled directly. -/
inductive FileVal where
  | bytes (bs : List Nat)
  | jsonObj (entries : List (String × List Nat))
deriving DecidableEq

/-- Filesystem state: the set of existing directories and an association
list from absolute path strings to file contents (earlier entries shadow
later ones). -/
structure FS where
  dirs : List String
  files : List (String × FileVal)
deriving DecidableEq

/-- Observable side effects of the script, in order of occurrence:
file writes, file removals, and lines printed to standard output. -/
inductive Event where
  | writeFile (p : String) (bs : List Nat)
  | removeFile (p : String)
  | out (s : String)
deriving DecidableEq

/-- The error taxonomy of a run (which unhandled Python exception ends the
process). -/
inductive Err where
  | manifestNotFound
  | manifestParseError
  | decodeError (fname : String)
  | writeError (fname : String)
  | cleanupError (p : String)
deriving DecidableEq

/-- Final status of a run. -/
inductive Outcome where
  | ok
  | err (e : Err)
deriving DecidableEq

/-- Result of a run: final filesystem, event trace, and outcome. -/
structure RunResult where
  fs : FS
  trace : List Event
  outcome : Outcome
deriving DecidableEq

/-- Result of the write loop: filesystem after the processed entries, the
events they produced, and the first error if one aborted the loop. -/
structure LoopOut where
  fs : FS
  tr : List Event
  err : Option Err
deriving DecidableEq

/-- `os.path.join(base, fname)` for a relative `fname` on a POSIX system. -/
def joinP (base fname : String) : String := base ++ "/" ++ fname

/-- The manifest path `os.path.join(base, "_files_data.json")`. -/
def manifestPath (base : String) : String := joinP base "_files_data.json"

/-- The script's own path `os.path.join(base, "_write_files.py")`. -/
def scriptPath (base : String) : String := joinP base "_write_files.py"

/-- The directory containing a path (everything before the last slash),
used to model that `open(path, "w")` requires the parent directory to
exist. -/
def parentDir (p : String) : String :=
  String.mk ((((p.data.reverse).dropWhile fun c => c ≠ '/').drop 1).reverse)

/-- First binding of a path in the file association list. -/
def getF : List (String × FileVal) → String → Option FileVal
  | [], _ => none
  | (q, v) :: rest, p => if q = p then some v else getF rest p

/-- Remove every binding of a path (`os.remove`). -/
def delF (l : List (String × FileVal)) (p : String) : List (String × FileVal) :=
  l.filter fun e => e.1 ≠ p

/-- The stdout line the script prints for one written file:
`print(f"Written: \x7bfname\x7d (\x7blines\x7d lines)")` with
`lines = content.count(chr(10))`. -/
def writtenLine (fname : String) (content : List Nat) : String :=
  "Written: " ++ fname ++ " (" ++ toString (List.count 10 content) ++ " lines)"

/-- The `for fname, b64content in files_b64.items()` loop of the script:
decode each value (base64, then UTF-8), write the decoded text UTF-8
encoded to `os.path.join(base, fname)` (an error if the parent directory
does not exist or the path is a directory), and print the per-file line.
The first failure aborts the loop, keeping all files already written. -/
def writeLoop (base : String) : List (String × List Nat) → FS → LoopOut
  | [], fs => ⟨fs, [], none⟩
  | (fname, v) :: rest, fs =>
    match decodeValue v with
    | none => ⟨fs, [], some (.decodeError fname)⟩
    | some content =>
      let fp := joinP base fname
      if fp ∈ fs.dirs ∨ parentDir fp ∉ fs.dirs then ⟨fs, [], some (.writeError fname)⟩
      else
        let lr := writeLoop base rest ⟨fs.dirs, (fp, .bytes (utf8Encode content)) :: fs.files⟩
        ⟨lr.fs, .writeFile fp (utf8Encode content) :: .out (writtenLine fname content) :: lr.tr,
          lr.err⟩

/-- The whole script body, straight-line: resolve the manifest next to the
script, parse it, run the write loop, then remove the manifest, remove the
script file, and print the final line.  Any failure ends the run at that
point with the filesystem and trace as they stand. -/
def run (base : String) (fs : FS) : RunResult :=
  match getF fs.files (manifestPath base) with
  | none => ⟨fs, [], .err .manifestNotFound⟩
  | some (.bytes _) => ⟨fs, [], .err .manifestParseError⟩
  | some (.jsonObj m) =>
    let lr := writeLoop base m fs
    match lr.err with
    | some e => ⟨lr.fs, lr.tr, .err e⟩
    | none =>
      match getF lr.fs.files (manifestPath base) with
      | none => ⟨lr.fs, lr.tr, .err (.cleanupError (manifestPath base))⟩
      | some _ =>
        let fs2 : FS := ⟨lr.fs.dirs, delF lr.fs.files (manifestPath base)⟩
        match getF fs2.files (scriptPath base) with
        | none => ⟨fs2, lr.tr ++ [.removeFile (manifestPath base)],
            .err (.cleanupError (scriptPath base))⟩
        | some _ =>
          ⟨⟨fs2.dirs, delF fs2.files (scriptPath base)⟩,
            lr.tr ++ [.removeFile (manifestPath base), .removeFile (scriptPath base),
              .out "Cleanup done"],
            .ok⟩

/-- The stdout lines of a trace, in order. -/
def stdoutOf (tr : List Event) : List String :=
  tr.filterMap fun ev =>
    match ev with
    | .out s => some s
    | _ => none

/-- Filesystem for the C1 counterexample: the manifest maps the manifest's
own filename to base64 of the text x. -/
def c1cexFs : FS :=
  ⟨["/app"],
    [(manifestPath "/app", .jsonObj [("_files_data.json", [101, 65, 61, 61])]),
      (scriptPath "/app", .bytes [])]⟩

/-- Manifest value for the C1 witness: base64 of the UTF-8 text hi
followed by a newline. -/
def c1val : List Nat := b64encode (utf8Encode [104, 105, 10])

/-- Filesystem for the C1 witness (the spec's end-to-end scenario A). -/
def c1wFs : FS :=
  ⟨["/app"],
    [(manifestPath "/app", .jsonObj [("hello.txt", c1val)]),
      (scriptPath "/app", .bytes [104])]⟩

/-- Filesystem for the C2 counterexample: the manifest maps the script's
own filename to base64 of the text x. -/
def c2cexFs : FS :=
  ⟨["/app"],
    [(manifestPath "/app", .jsonObj [("_write_files.py", [101, 65, 61, 61])]),
      (scriptPath "/app", .bytes [7])]⟩

/-- Text for the C2 witness: h followed by the code point 233 (a two-byte
UTF-8 character). -/
def c2txt : List Nat := [104, 233]

/-- Filesystem for the C2 witness. -/
def c2wFs : FS :=
  ⟨["/app"],
    [(manifestPath "/app", .jsonObj [("a.txt", b64encode (utf8Encode c2txt))]),
      (scriptPath "/app", .bytes [])]⟩

/-- Manifest value for the C3 witness: base64 of the three-line text a, b,
c separated by newlines with no trailing newline. -/
def c3val : List Nat := b64encode (utf8Encode [97, 10, 98, 10, 99])

/-- Manifest value for the C3 witness, with a trailing newline. -/
def c3val2 : List Nat := b64encode (utf8Encode [97, 10, 98, 10, 99, 10])

/-- Filesystem for the C3 witness, first run. -/
def c3wFs : FS :=
  ⟨["/app"],
    [(manifestPath "/app", .jsonObj [("f.txt", c3val)]), (scriptPath "/app", .bytes [])]⟩

/-- Filesystem for the C3 witness, second run (trailing-newline example). -/
def c3wFs2 : FS :=
  ⟨["/app"],
    [(manifestPath "/app", .jsonObj [("g.txt", c3val2)]), (scriptPath "/app", .bytes [])]⟩

/-- Manifest value for the C4 witness's first (successful) entry: base64 of
the text ok. -/
def c4good : List Nat := b64encode (utf8Encode [111, 107])

/-- Filesystem for the C4 witness: the second manifest value is gA==, valid
base64 whose decoded byte 128 is not valid UTF-8. -/
def c4wFs : FS :=
  ⟨["/app"],
    [(manifestPath "/app",
        .jsonObj [("good.txt", c4good), ("bad.txt", [103, 65, 61, 61])]),
      (scriptPath "/app", .bytes [])]⟩

/-- Manifest value for the C5 witness: base64 of the text w. -/
def c5v : List Nat := b64encode (utf8Encode [119])

/-- Filesystem for the C5 witness. -/
def c5wFs : FS :=
  ⟨["/app"],
    [(manifestPath "/app", .jsonObj [("c.txt", c5v)]), (scriptPath "/app", .bytes [])]⟩

/-- Manifest value for the C6 witness: base64 of the text h. -/
def c6v : List Nat := b64encode (utf8Encode [104])

/-- Filesystem for the C6 witness. -/
def c6wFs : FS :=
  ⟨["/app"],
    [(manifestPath "/app", .jsonObj [("h.txt", c6v)]), (scriptPath "/app", .bytes [])]⟩

/-- Trace before the final Cleanup done line in the C6 witness run. -/
def c6tr0 : List Event :=
  [Event.writeFile (joinP "/app" "h.txt") [104], Event.out "Written: h.txt (0 lines)",
    Event.removeFile (manifestPath "/app"), Event.removeFile (scriptPath "/app")]

/-- Filesystem for the C7 witness, first part: no manifest. -/
def c7aFs : FS := ⟨["/app"], [(scriptPath "/app", .bytes [])]⟩

/-- Filesystem for the C7 witness, second part: an empty manifest, so the
first run succeeds and deletes it. -/
def c7bFs : FS :=
  ⟨["/app"], [(manifestPath "/app", .jsonObj []), (scriptPath "/app", .bytes [])]⟩

/-- Manifest value for the C8 witness's first entry: base64 of x. -/
def c8v1 : List Nat := b64encode (utf8Encode [120])

/-- Manifest value for the C8 witness's second entry: base64 of the text y,
newline, z, newline. -/
def c8v2 : List Nat := b64encode (utf8Encode [121, 10, 122, 10])

/-- Filesystem for the C8 witness (the spec's end-to-end scenario B). -/
def c8wFs : FS :=
  ⟨["/app"],
    [(manifestPath "/app", .jsonObj [("a.txt", c8v1), ("b.txt", c8v2)]),
      (scriptPath "/app", .bytes [])]⟩

/-- Manifest value for the C9 witness: base64 of x. -/
def c9v : List Nat := b64encode (utf8Encode [120])

/-- Filesystem for the C9 witness: the single entry targets the
subdirectory sub, which does not exist. -/
def c9wFs : FS :=
  ⟨["/app"],
    [(manifestPath "/app", .jsonObj [("sub/f.txt", c9v)]), (scriptPath "/app", .bytes [])]⟩

/-- Filesystem for the C10 witness: the manifest maps an ordinary key and
both special names. -/
def c10wFs : FS :=
  ⟨["/app"],
    [(manifestPath "/app",
        .jsonObj [("x.txt", b64encode (utf8Encode [104])),
          ("_files_data.json", [101, 65, 61, 61]), ("_write_files.py", [101, 65, 61, 61])]),
      (scriptPath "/app", .bytes [])]⟩

theorem b64dec_b64enc : ∀ v, v < 64 → b64dec (b64enc v) = some v := by decide

theorem b64enc_lt (v : Nat) : b64enc v < 128 := by
  unfold b64enc
  repeat' split
  all_goals omega

theorem b64enc_ne_61 (v : Nat) : b64enc v ≠ 61 := by
  unfold b64enc
  repeat' split
  all_goals omega

theorem decQuads_b64encode : ∀ bs : List Nat, (∀ b ∈ bs, b < 256) →
    decQuads (b64encode bs) = some bs
  | [], _ => rfl
  | [b1], h => by
    have hb1 : b1 < 256 := h b1 (by simp)
    simp only [b64encode, decQuads]
    rw [b64dec_b64enc _ (by omega), b64dec_b64enc _ (by omega)]
    simp
    omega
  | [b1, b2], h => by
    have hb1 : b1 < 256 := h b1 (by simp)
    have hb2 : b2 < 256 := h b2 (by simp)
    simp only [b64encode, decQuads]
    rw [b64dec_b64enc _ (by omega), b64dec_b64enc _ (by omega)]
    simp only [Option.some_bind]
    rw [if_neg (b64enc_ne_61 _), b64dec_b64enc _ (by omega)]
    simp
    omega
  | b1 :: b2 :: b3 :: rest, h => by
    have hb1 : b1 < 256 := h b1 (by simp)
    have hb2 : b2 < 256 := h b2 (by simp)
    have hb3 : b3 < 256 := h b3 (by simp)
    have ih := decQuads_b64encode rest (fun b hb => h b (by simp [hb]))
    have e1 : b1 / 4 * 4 + (b1 % 4 * 16 + b2 / 16) / 16 = b1 := by omega
    have e2 : (b1 % 4 * 16 + b2 / 16) % 16 * 16 + (b2 % 16 * 4 + b3 / 64) / 4 = b2 := by omega
    have e3 : (b2 % 16 * 4 + b3 / 64) % 4 * 64 + b3 % 64 = b3 := by omega
    simp only [b64encode, decQuads]
    rw [b64dec_b64enc _ (by omega), b64dec_b64enc _ (by omega)]
    simp only [Option.some_bind]
    rw [if_neg (b64enc_ne_61 _), b64dec_b64enc _ (by omega)]
    simp only [Option.some_bind]
    rw [if_neg (b64enc_ne_61 _), b64dec_b64enc _ (by omega)]
    simp only [Option.some_bind]
    rw [ih]
    simp [e1, e2, e3]

theorem b64encode_mem : ∀ bs : List Nat, (∀ b ∈ bs, b < 256) →
    ∀ c ∈ b64encode bs, c < 128 ∧ ((b64dec c).isSome || c == 61) = true
  | [], _ => by intro c hc; simp [b64encode] at hc
  | [b1], h => by
    have hb1 : b1 < 256 := h b1 (by simp)
    intro c hc
    simp only [b64encode, List.mem_cons, List.not_mem_nil, or_false] at hc
    rcases hc with rfl | rfl | rfl | rfl
    · exact ⟨b64enc_lt _, by rw [b64dec_b64enc _ (by omega)]; rfl⟩
    · exact ⟨b64enc_lt _, by rw [b64dec_b64enc _ (by omega)]; rfl⟩
    · exact ⟨by omega, by rfl⟩
    · exact ⟨by omega, by rfl⟩
  | [b1, b2], h => by
    have hb1 : b1 < 256 := h b1 (by simp)
    have hb2 : b2 < 256 := h b2 (by simp)
    intro c hc
    simp only [b64encode, List.mem_cons, List.not_mem_nil, or_false] at hc
    rcases hc with rfl | rfl | rfl | rfl
    · exact ⟨b64enc_lt _, by rw [b64dec_b64enc _ (by omega)]; rfl⟩
    · exact ⟨b64enc_lt _, by rw [b64dec_b64enc _ (by omega)]; rfl⟩
    · exact ⟨b64enc_lt _, by rw [b64dec_b64enc _ (by omega)]; rfl⟩
    · exact ⟨by omega, by rfl⟩
  | b1 :: b2 :: b3 :: rest, h => by
    have hb1 : b1 < 256 := h b1 (by simp)
    have hb2 : b2 < 256 := h b2 (by simp)
    have hb3 : b3 < 256 := h b3 (by simp)
    intro c hc
    simp only [b64encode, List.mem_cons] at hc
    rcases hc with rfl | rfl | rfl | rfl | hc
    · exact ⟨b64enc_lt _, by rw [b64dec_b64enc _ (by omega)]; rfl⟩
    · exact ⟨b64enc_lt _, by rw [b64dec_b64enc _ (by omega)]; rfl⟩
    · exact ⟨b64enc_lt _, by rw [b64dec_b64enc _ (by omega)]; rfl⟩
    · exact ⟨b64enc_lt _, by rw [b64dec_b64enc _ (by omega)]; rfl⟩
    · exact b64encode_mem rest (fun b hb => h b (by simp [hb])) c hc

theorem b64decodePy_b64encode (bs : List Nat) (hb : ∀ b ∈ bs, b < 256) :
    b64decodePy (b64encode bs) = some bs := by
  have hfil : ((b64encode bs).filter fun c => (b64dec c).isSome || c == 61) = b64encode bs :=
    List.filter_eq_self.mpr fun c hc => (b64encode_mem bs hb c hc).2
  rw [b64decodePy, if_pos fun c hc => (b64encode_mem bs hb c hc).1, hfil,
    decQuads_b64encode bs hb]

theorem utf8Decode_encodeCp (n : Nat) (hv : ValidCp n) (tl : List Nat) :
    utf8Decode (utf8EncodeCp n ++ tl) = Option.map (fun t => n :: t) (utf8Decode tl) := by
  obtain ⟨h1, h2⟩ := hv
  rcases Nat.lt_or_ge n 128 with hc | hc
  · have henc : utf8EncodeCp n = [n] := by rw [utf8EncodeCp, if_pos hc]
    rw [henc, List.cons_append, List.nil_append, utf8Decode.eq_def]
    simp only
    rw [if_pos hc]
  · rcases Nat.lt_or_ge n 2048 with hc2 | hc2
    · have henc : utf8EncodeCp n = [192 + n / 64, 128 + n % 64] := by
        rw [utf8EncodeCp, if_neg (by omega), if_pos hc2]
      have e : (192 + n / 64 - 192) * 64 + (128 + n % 64 - 128) = n := by omega
      rw [henc]
      simp only [List.cons_append, List.nil_append]
      rw [utf8Decode.eq_def]
      simp only
      rw [if_neg (by omega), if_neg (by omega), if_pos (by omega), if_pos (by omega)]
      simp only [e]
    · rcases Nat.lt_or_ge n 65536 with hc3 | hc3
      · have henc : utf8EncodeCp n = [224 + n / 4096, 128 + n / 64 % 64, 128 + n % 64] := by
          rw [utf8EncodeCp, if_neg (by omega), if_neg (by omega), if_pos hc3]
        have e : (224 + n / 4096 - 224) * 4096 + (128 + n / 64 % 64 - 128) * 64 +
            (128 + n % 64 - 128) = n := by omega
        rw [henc]
        simp only [List.cons_append, List.nil_append]
        rw [utf8Decode.eq_def]
        simp only
        rw [if_neg (by omega), if_neg (by omega), if_neg (by omega), if_pos (by omega),
          if_pos (by omega)]
        simp only [e]
      · have henc : utf8EncodeCp n =
            [240 + n / 262144, 128 + n / 4096 % 64, 128 + n / 64 % 64, 128 + n % 64] := by
          rw [utf8EncodeCp, if_neg (by omega), if_neg (by omega), if_neg (by omega)]
        have e : (240 + n / 262144 - 240) * 262144 + (128 + n / 4096 % 64 - 128) * 4096 +
            (128 + n / 64 % 64 - 128) * 64 + (128 + n % 64 - 128) = n := by omega
        rw [henc]
        simp only [List.cons_append, List.nil_append]
        rw [utf8Decode.eq_def]
        simp only
        rw [if_neg (by omega), if_neg (by omega), if_neg (by omega), if_neg (by omega),
          if_pos (by omega), if_pos (by omega)]
        simp only [e]

theorem utf8Decode_utf8Encode (t : List Nat) (h : ∀ n ∈ t, ValidCp n) :
    utf8Decode (utf8Encode t) = some t := by
  induction t with
  | nil => rfl
  | cons n rest ih =>
    rw [show utf8Encode (n :: rest) = utf8EncodeCp n ++ utf8Encode rest from rfl,
      utf8Decode_encodeCp n (h n (by simp)), ih fun m hm => h m (by simp [hm])]
    rfl

theorem utf8Encode_lt (t : List Nat) (h : ∀ n ∈ t, ValidCp n) :
    ∀ b ∈ utf8Encode t, b < 256 := by
  induction t with
  | nil => simp [utf8Encode]
  | cons n rest ih =>
    intro b hb
    rw [show utf8Encode (n :: rest) = utf8EncodeCp n ++ utf8Encode rest from rfl] at hb
    rcases List.mem_append.mp hb with hb | hb
    · have h1 := (h n (by simp)).1
      simp only [utf8EncodeCp] at hb
      split at hb
      · simp only [List.mem_singleton] at hb; omega
      · split at hb
        · simp only [List.mem_cons, List.not_mem_nil, or_false] at hb
          rcases hb with rfl | rfl <;> omega
        · split at hb
          · simp only [List.mem_cons, List.not_mem_nil, or_false] at hb
            rcases hb with rfl | rfl | rfl <;> omega
          · simp only [List.mem_cons, List.not_mem_nil, or_false] at hb
            rcases hb with rfl | rfl | rfl | rfl <;> omega
    · exact ih (fun m hm => h m (by simp [hm])) b hb

theorem decodeValue_encode (t : List Nat) (h : ∀ n ∈ t, ValidCp n) :
    decodeValue (b64encode (utf8Encode t)) = some t := by
  rw [decodeValue, b64decodePy_b64encode _ (utf8Encode_lt t h)]
  exact utf8Decode_utf8Encode t h

theorem getF_delF (l : List (String × FileVal)) (p q : String) :
    getF (delF l p) q = if p = q then none else getF l q := by
  induction l with
  | nil => simp only [delF, List.filter_nil, getF]; split <;> rfl
  | cons e rest ih =>
    obtain ⟨r, v⟩ := e
    by_cases hrp : r = p
    · have hd : delF ((r, v) :: rest) p = delF rest p := by simp [delF, hrp]
      rw [hd, ih]
      by_cases hpq : p = q
      · rw [if_pos hpq, if_pos hpq]
      · rw [if_neg hpq, if_neg hpq, getF, if_neg fun h => hpq (hrp.symm.trans h)]
    · have hd : delF ((r, v) :: rest) p = (r, v) :: delF rest p := by simp [delF, hrp]
      rw [hd, getF, getF]
      by_cases hrq : r = q
      · have hpq : ¬p = q := fun h => hrp (hrq.trans h.symm)
        rw [if_pos hrq, if_pos hrq, if_neg hpq]
      · rw [if_neg hrq, if_neg hrq, ih]

theorem string_data_append (s t : String) : (s ++ t).data = s.data ++ t.data :=
  String.data_append s t

theorem joinP_inj (base f1 f2 : String) (h : joinP base f1 = joinP base f2) : f1 = f2 := by
  have h' := congrArg String.data h
  rw [joinP, joinP, string_data_append, string_data_append] at h'
  exact String.ext (List.append_cancel_left h')

theorem manifestPath_ne_scriptPath (base : String) : manifestPath base ≠ scriptPath base := by
  intro h
  have := joinP_inj base _ _ h
  exact absurd this (by decide)

theorem writeLoop_dirs (base : String) (es : List (String × List Nat)) :
    ∀ fs : FS, (writeLoop base es fs).fs.dirs = fs.dirs := by
  induction es with
  | nil => intro fs; rfl
  | cons e rest ih =>
    intro fs
    obtain ⟨fname, v⟩ := e
    simp only [writeLoop]
    cases hdv : decodeValue v with
    | none => rfl
    | some content =>
      simp only
      by_cases hw : joinP base fname ∈ fs.dirs ∨ parentDir (joinP base fname) ∉ fs.dirs
      · rw [if_pos hw]
      · rw [if_neg hw]
        exact ih _

theorem writeLoop_getF_not_mem (base : String) (es : List (String × List Nat)) (p : String) :
    ∀ fs : FS, p ∉ (es.map fun e => joinP base e.1) →
      getF (writeLoop base es fs).fs.files p = getF fs.files p := by
  induction es with
  | nil => intro fs _; rfl
  | cons e rest ih =>
    intro fs hp
    obtain ⟨fname, v⟩ := e
    have hp1 : joinP base fname ≠ p := fun h =>
      hp (by rw [List.map_cons, ← h]; exact List.mem_cons_self _ _)
    have hp2 : p ∉ rest.map fun e => joinP base e.1 := fun h =>
      hp (by rw [List.map_cons]; exact List.mem_cons_of_mem _ h)
    simp only [writeLoop]
    cases hdv : decodeValue v with
    | none => rfl
    | some content =>
      simp only
      by_cases hw : joinP base fname ∈ fs.dirs ∨ parentDir (joinP base fname) ∉ fs.dirs
      · rw [if_pos hw]
      · rw [if_neg hw]
        have step := ih ⟨fs.dirs, (joinP base fname, .bytes (utf8Encode content)) :: fs.files⟩ hp2
        have hred : getF ((joinP base fname, FileVal.bytes (utf8Encode content)) :: fs.files) p =
            getF fs.files p := by rw [getF, if_neg hp1]
        exact step.trans hred

theorem writeLoop_isSome (base : String) (es : List (String × List Nat)) (p : String) :
    ∀ fs : FS, (getF fs.files p).isSome →
      (getF (writeLoop base es fs).fs.files p).isSome := by
  induction es with
  | nil => intro fs h; exact h
  | cons e rest ih =>
    intro fs h
    obtain ⟨fname, v⟩ := e
    simp only [writeLoop]
    cases hdv : decodeValue v with
    | none => exact h
    | some content =>
      simp only
      by_cases hw : joinP base fname ∈ fs.dirs ∨ parentDir (joinP base fname) ∉ fs.dirs
      · rw [if_pos hw]; exact h
      · rw [if_neg hw]
        refine ih _ ?_
        by_cases hfp : joinP base fname = p
        · simp [getF, hfp]
        · simp only [getF, if_neg hfp]
          exact h

theorem writeLoop_no_remove (base : String) (es : List (String × List Nat)) (p : String) :
    ∀ fs : FS, Event.removeFile p ∉ (writeLoop base es fs).tr := by
  induction es with
  | nil => intro fs; simp [writeLoop]
  | cons e rest ih =>
    intro fs
    obtain ⟨fname, v⟩ := e
    simp only [writeLoop]
    cases hdv : decodeValue v with
    | none => simp
    | some content =>
      simp only
      by_cases hw : joinP base fname ∈ fs.dirs ∨ parentDir (joinP base fname) ∉ fs.dirs
      · rw [if_pos hw]; simp
      · rw [if_neg hw]
        simp only [List.mem_cons]
        intro hmem
        rcases hmem with h1 | h1 | h1
        · exact absurd h1 (by simp)
        · exact absurd h1 (by simp)
        · exact ih _ h1

theorem writeLoop_out_shape (base : String) (es : List (String × List Nat)) (s : String) :
    ∀ fs : FS, Event.out s ∈ (writeLoop base es fs).tr → ∃ k c, s = writtenLine k c := by
  induction es with
  | nil => intro fs h; simp [writeLoop] at h
  | cons e rest ih =>
    intro fs h
    obtain ⟨fname, v⟩ := e
    simp only [writeLoop] at h
    cases hdv : decodeValue v with
    | none => rw [hdv] at h; simp at h
    | some content =>
      rw [hdv] at h
      simp only at h
      by_cases hw : joinP base fname ∈ fs.dirs ∨ parentDir (joinP base fname) ∉ fs.dirs
      · rw [if_pos hw] at h; simp at h
      · rw [if_neg hw] at h
        simp only [List.mem_cons] at h
        rcases h with h1 | h1 | h1
        · exact absurd h1 (by simp)
        · exact ⟨fname, content, by injection h1⟩
        · exact ih _ h1

theorem writeLoop_ok_of (base : String) (es : List (String × List Nat)) :
    ∀ fs : FS,
      (∀ e ∈ es, (∃ c, decodeValue e.2 = some c) ∧ joinP base e.1 ∉ fs.dirs ∧
        parentDir (joinP base e.1) ∈ fs.dirs) →
      (writeLoop base es fs).err = none := by
  induction es with
  | nil => intro fs _; rfl
  | cons e rest ih =>
    intro fs h
    obtain ⟨fname, v⟩ := e
    obtain ⟨⟨c, hc⟩, h1, h2⟩ := h (fname, v) (by simp)
    simp only [writeLoop, hc]
    rw [if_neg fun hor => hor.elim h1 fun hn => hn h2]
    exact ih _ fun e he => h e (by simp [he])

theorem writeLoop_append (base : String) (pre rest : List (String × List Nat)) :
    ∀ fs : FS, (writeLoop base pre fs).err = none →
      writeLoop base (pre ++ rest) fs =
        ⟨(writeLoop base rest (writeLoop base pre fs).fs).fs,
          (writeLoop base pre fs).tr ++ (writeLoop base rest (writeLoop base pre fs).fs).tr,
          (writeLoop base rest (writeLoop base pre fs).fs).err⟩ := by
  induction pre with
  | nil => intro fs _; rfl
  | cons e pre' ih =>
    intro fs h
    obtain ⟨fname, v⟩ := e
    cases hdv : decodeValue v with
    | none => rw [writeLoop, hdv] at h; simp at h
    | some content =>
      by_cases hw : joinP base fname ∈ fs.dirs ∨ parentDir (joinP base fname) ∉ fs.dirs
      · rw [writeLoop, hdv] at h
        simp only at h
        rw [if_pos hw] at h
        simp at h
      · have h' : (writeLoop base pre'
            ⟨fs.dirs, (joinP base fname, .bytes (utf8Encode content)) :: fs.files⟩).err =
            none := by
          rw [writeLoop, hdv] at h
          simp only at h
          rw [if_neg hw] at h
          exact h
        simp only [List.cons_append, writeLoop, hdv, if_neg hw, List.append_eq]
        rw [ih _ h']

theorem writeLoop_ok_mem (base : String) (es : List (String × List Nat)) :
    ∀ fs : FS, (writeLoop base es fs).err = none → ∀ k v, (k, v) ∈ es →
      ∃ c, decodeValue v = some c ∧
        Event.writeFile (joinP base k) (utf8Encode c) ∈ (writeLoop base es fs).tr ∧
        Event.out (writtenLine k c) ∈ (writeLoop base es fs).tr := by
  induction es with
  | nil => intro fs _ k v hmem; simp at hmem
  | cons e rest ih =>
    intro fs h k v hmem
    obtain ⟨fname, v0⟩ := e
    cases hdv : decodeValue v0 with
    | none => rw [writeLoop, hdv] at h; simp at h
    | some content =>
      by_cases hw : joinP base fname ∈ fs.dirs ∨ parentDir (joinP base fname) ∉ fs.dirs
      · rw [writeLoop, hdv] at h
        simp only at h
        rw [if_pos hw] at h
        simp at h
      · have h' : (writeLoop base rest
            ⟨fs.dirs, (joinP base fname, .bytes (utf8Encode content)) :: fs.files⟩).err =
            none := by
          rw [writeLoop, hdv] at h
          simp only at h
          rw [if_neg hw] at h
          exact h
        simp only [writeLoop, hdv, if_neg hw]
        rcases List.mem_cons.mp hmem with heq | hmem'
        · obtain ⟨hk, hv⟩ := Prod.mk.injEq .. ▸ heq
          subst hk; subst hv
          exact ⟨content, hdv, by simp, by simp⟩
        · obtain ⟨c, hc, hw1, hw2⟩ := ih _ h' k v hmem'
          exact ⟨c, hc, by simp [hw1], by simp [hw2]⟩

theorem writeLoop_ok_getF (base : String) (es : List (String × List Nat)) :
    ∀ fs : FS, (writeLoop base es fs).err = none →
      (es.map fun e => joinP base e.1).Nodup → ∀ k v, (k, v) ∈ es →
      ∃ c, decodeValue v = some c ∧
        getF (writeLoop base es fs).fs.files (joinP base k) =
          some (.bytes (utf8Encode c)) := by
  induction es with
  | nil => intro fs _ _ k v hmem; simp at hmem
  | cons e rest ih =>
    intro fs h hnd k v hmem
    obtain ⟨fname, v0⟩ := e
    cases hdv : decodeValue v0 with
    | none => rw [writeLoop, hdv] at h; simp at h
    | some content =>
      by_cases hw : joinP base fname ∈ fs.dirs ∨ parentDir (joinP base fname) ∉ fs.dirs
      · rw [writeLoop, hdv] at h
        simp only at h
        rw [if_pos hw] at h
        simp at h
      · have h' : (writeLoop base rest
            ⟨fs.dirs, (joinP base fname, .bytes (utf8Encode content)) :: fs.files⟩).err =
            none := by
          rw [writeLoop, hdv] at h
          simp only at h
          rw [if_neg hw] at h
          exact h
        simp only [writeLoop, hdv, if_neg hw]
        rcases List.mem_cons.mp hmem with heq | hmem'
        · obtain ⟨hk, hv⟩ := Prod.mk.injEq .. ▸ heq
          subst hk; subst hv
          refine ⟨content, hdv, ?_⟩
          rw [List.map_cons] at hnd
          rw [writeLoop_getF_not_mem base rest _ _ (List.nodup_cons.mp hnd).1, getF,
            if_pos rfl]
        · rw [List.map_cons] at hnd
          exact ih _ h' (List.nodup_cons.mp hnd).2 k v hmem'

theorem writeLoop_ok_trace (base : String) (es : List (String × List Nat)) :
    ∀ fs : FS, (writeLoop base es fs).err = none →
      ∃ cs, List.Forall₂ (fun e c => decodeValue e.2 = some c) es cs ∧
        (writeLoop base es fs).tr =
          (List.zipWith (fun e c =>
            [Event.writeFile (joinP base e.1) (utf8Encode c),
              Event.out (writtenLine e.1 c)]) es cs).flatten := by
  induction es with
  | nil => intro fs _; exact ⟨[], List.Forall₂.nil, by simp [writeLoop]⟩
  | cons e rest ih =>
    intro fs h
    obtain ⟨fname, v0⟩ := e
    cases hdv : decodeValue v0 with
    | none => rw [writeLoop, hdv] at h; simp at h
    | some content =>
      by_cases hw : joinP base fname ∈ fs.dirs ∨ parentDir (joinP base fname) ∉ fs.dirs
      · rw [writeLoop, hdv] at h
        simp only at h
        rw [if_pos hw] at h
        simp at h
      · have h' : (writeLoop base rest
            ⟨fs.dirs, (joinP base fname, .bytes (utf8Encode content)) :: fs.files⟩).err =
            none := by
          rw [writeLoop, hdv] at h
          simp only at h
          rw [if_neg hw] at h
          exact h
        obtain ⟨cs, hF, htr⟩ := ih _ h'
        refine ⟨content :: cs, List.Forall₂.cons hdv hF, ?_⟩
        simp only [writeLoop, hdv, if_neg hw]
        simp [htr]

theorem stdoutOf_append (a b : List Event) : stdoutOf (a ++ b) = stdoutOf a ++ stdoutOf b :=
  List.filterMap_append a b _

theorem stdoutOf_zip_join (base : String) (es : List (String × List Nat)) :
    ∀ cs : List (List Nat),
      stdoutOf (List.zipWith (fun e c =>
          [Event.writeFile (joinP base e.1) (utf8Encode c),
            Event.out (writtenLine e.1 c)]) es cs).flatten =
        List.zipWith (fun e c => writtenLine e.1 c) es cs := by
  induction es with
  | nil => intro cs; simp [stdoutOf]
  | cons e rest ih =>
    intro cs
    cases cs with
    | nil => simp [stdoutOf]
    | cons c cs' =>
      simp only [List.zipWith_cons_cons, List.flatten_cons, stdoutOf_append, ih cs']
      simp [stdoutOf]

theorem writtenLine_ne_cleanup (k : String) (c : List Nat) :
    writtenLine k c ≠ "Cleanup done" := by
  intro h
  have h' := congrArg String.data h
  rw [writtenLine, string_data_append, string_data_append, string_data_append,
    string_data_append] at h'
  have e1 : "Written: ".data = 'W' :: "ritten: ".data := by decide
  have e2 : "Cleanup done".data = 'C' :: "leanup done".data := by decide
  rw [e1, e2] at h'
  simp only [List.cons_append] at h'
  injection h' with h1 h2
  exact absurd h1 (by decide)

theorem paths_nodup (base : String) (m : List (String × List Nat))
    (h : (m.map Prod.fst).Nodup) : (m.map fun e => joinP base e.1).Nodup := by
  have hinj : Function.Injective (joinP base) := fun a b hab => joinP_inj base a b hab
  have h2 := h.map hinj
  rw [List.map_map] at h2
  simpa [Function.comp] using h2

theorem run_of_loopErr (base : String) (fs : FS) (m : List (String × List Nat)) (e : Err)
    (hm : getF fs.files (manifestPath base) = some (.jsonObj m))
    (hL : (writeLoop base m fs).err = some e) :
    run base fs = ⟨(writeLoop base m fs).fs, (writeLoop base m fs).tr, .err e⟩ := by
  simp only [run, hm, hL]

theorem run_ok_shape (base : String) (fs : FS) (h : (run base fs).outcome = .ok) :
    ∃ m, getF fs.files (manifestPath base) = some (.jsonObj m) ∧
      (writeLoop base m fs).err = none ∧
      (run base fs).fs.dirs = (writeLoop base m fs).fs.dirs ∧
      (run base fs).fs.files =
        delF (delF (writeLoop base m fs).fs.files (manifestPath base)) (scriptPath base) ∧
      (run base fs).trace = (writeLoop base m fs).tr ++
        [Event.removeFile (manifestPath base), Event.removeFile (scriptPath base),
          Event.out "Cleanup done"] := by
  cases hm : getF fs.files (manifestPath base) with
  | none => simp only [run, hm] at h; simp at h
  | some fv =>
    cases fv with
    | bytes bs => simp only [run, hm] at h; simp at h
    | jsonObj m =>
      refine ⟨m, rfl, ?_⟩
      cases hL : (writeLoop base m fs).err with
      | some e => simp only [run, hm, hL] at h; simp at h
      | none =>
        have hpres : (getF (writeLoop base m fs).fs.files (manifestPath base)).isSome :=
          writeLoop_isSome base m _ fs (by rw [hm]; rfl)
        obtain ⟨w1, hw1⟩ := Option.isSome_iff_exists.mp hpres
        cases hs : getF (delF (writeLoop base m fs).fs.files (manifestPath base))
            (scriptPath base) with
        | none => simp only [run, hm, hL, hw1, hs] at h; simp at h
        | some w2 =>
          refine ⟨rfl, ?_, ?_, ?_⟩ <;> simp only [run, hm, hL, hw1, hs]

theorem run_abort_at (base : String) (fs : FS) (pre post : List (String × List Nat))
    (k : String) (v : List Nat) (e : Err)
    (hm : getF fs.files (manifestPath base) = some (.jsonObj (pre ++ (k, v) :: post)))
    (hnd : ((pre ++ (k, v) :: post).map Prod.fst).Nodup)
    (hpre : ∀ en ∈ pre, (∃ c, decodeValue en.2 = some c) ∧ joinP base en.1 ∉ fs.dirs ∧
      parentDir (joinP base en.1) ∈ fs.dirs)
    (hhead : writeLoop base ((k, v) :: post) (writeLoop base pre fs).fs =
      ⟨(writeLoop base pre fs).fs, [], some e⟩) :
    (run base fs).outcome = .err e ∧
    (∀ en ∈ pre, ∃ c, decodeValue en.2 = some c ∧
      getF (run base fs).fs.files (joinP base en.1) = some (.bytes (utf8Encode c))) ∧
    getF (run base fs).fs.files (joinP base k) = getF fs.files (joinP base k) ∧
    (∀ en ∈ post, getF (run base fs).fs.files (joinP base en.1) =
      getF fs.files (joinP base en.1)) ∧
    (getF (run base fs).fs.files (manifestPath base)).isSome ∧
    (∀ p, Event.removeFile p ∉ (run base fs).trace) ∧
    Event.out "Cleanup done" ∉ (run base fs).trace := by
  have hokpre : (writeLoop base pre fs).err = none := writeLoop_ok_of base pre fs hpre
  have hloop : writeLoop base (pre ++ (k, v) :: post) fs =
      ⟨(writeLoop base pre fs).fs, (writeLoop base pre fs).tr, some e⟩ := by
    rw [writeLoop_append base pre ((k, v) :: post) fs hokpre, hhead, List.append_nil]
  have hrun : run base fs =
      ⟨(writeLoop base pre fs).fs, (writeLoop base pre fs).tr, .err e⟩ := by
    rw [run_of_loopErr base fs (pre ++ (k, v) :: post) e hm (by rw [hloop]), hloop]
  have hndp : ((pre ++ (k, v) :: post).map fun en => joinP base en.1).Nodup :=
    paths_nodup base _ hnd
  rw [List.map_append, List.map_cons] at hndp
  have hdisj := (List.nodup_append.mp hndp).2.2
  refine ⟨by rw [hrun], ?_, ?_, ?_, ?_, ?_, ?_⟩
  · intro en hen
    have hpnd : (pre.map fun en => joinP base en.1).Nodup := (List.nodup_append.mp hndp).1
    obtain ⟨c, hc, hg⟩ := writeLoop_ok_getF base pre fs hokpre hpnd en.1 en.2
      (by simpa using hen)
    exact ⟨c, hc, by rw [hrun]; exact hg⟩
  · rw [hrun]
    exact writeLoop_getF_not_mem base pre (joinP base k) fs
      (fun hmem => hdisj hmem (List.mem_cons_self _ _))
  · intro en hen
    rw [hrun]
    refine writeLoop_getF_not_mem base pre (joinP base en.1) fs fun hmem => ?_
    exact hdisj hmem (List.mem_cons_of_mem _ (List.mem_map_of_mem _ hen))
  · rw [hrun]
    exact writeLoop_isSome base pre (manifestPath base) fs (by rw [hm]; rfl)
  · intro p
    rw [hrun]
    exact writeLoop_no_remove base pre p fs
  · rw [hrun]
    intro hmem
    obtain ⟨k0, c0, hk0⟩ := writeLoop_out_shape base pre "Cleanup done" fs hmem
    exact writtenLine_ne_cleanup k0 c0 hk0.symm

/-- Claim C1 (counterexample): the claim fails as stated.  For the valid
one-entry manifest mapping the key "_files_data.json" to "eA==" (base64 of
the text x), the run succeeds, yet afterwards no file exists at
base/_files_data.json: the write-loop wrote it, but the cleanup step
deleted that very path. -/
theorem c1_counterexample :
    decodeValue [101, 65, 61, 61] = some [120] ∧
    (run "/app" c1cexFs).outcome = .ok ∧
    getF (run "/app" c1cexFs).fs.files (joinP "/app" "_files_data.json") = none := by
  refine ⟨by decide, by decide, by decide⟩

/-- Claim C1 (amended): for every valid manifest M, a successful run
produces, for every key k in M other than "_files_data.json" and
"_write_files.py", a file at base/k whose content is the UTF-8 encoding of
utf8_decode(base64_decode(M[k])); files written for the two excluded key
names are removed again by the cleanup step. -/
theorem c1_amended (base : String) (fs : FS) (m : List (String × List Nat)) (k : String)
    (v : List Nat)
    (hm : getF fs.files (manifestPath base) = some (.jsonObj m))
    (hnd : (m.map Prod.fst).Nodup)
    (hok : (run base fs).outcome = .ok)
    (hmem : (k, v) ∈ m)
    (hk1 : k ≠ "_files_data.json") (hk2 : k ≠ "_write_files.py") :
    ∃ content, decodeValue v = some content ∧
      getF (run base fs).fs.files (joinP base k) = some (.bytes (utf8Encode content)) := by
  obtain ⟨m', hm', hL, hfsd, hfsf, htr⟩ := run_ok_shape base fs hok
  rw [hm] at hm'
  injection hm' with h1
  injection h1 with h2
  subst h2
  obtain ⟨c, hc, hg⟩ := writeLoop_ok_getF base m fs hL (paths_nodup base m hnd) k v hmem
  have ha : ¬scriptPath base = joinP base k := fun h => hk2 (joinP_inj base _ _ h).symm
  have hb : ¬manifestPath base = joinP base k := fun h => hk1 (joinP_inj base _ _ h).symm
  refine ⟨c, hc, ?_⟩
  rw [hfsf, getF_delF, if_neg ha, getF_delF, if_neg hb]
  exact hg

theorem c1_witness :
    getF c1wFs.files (manifestPath "/app") = some (.jsonObj [("hello.txt", c1val)]) ∧
    (run "/app" c1wFs).outcome = .ok ∧
    "hello.txt" ≠ "_files_data.json" ∧
    "hello.txt" ≠ "_write_files.py" ∧
    decodeValue c1val = some [104, 105, 10] ∧
    getF (run "/app" c1wFs).fs.files (joinP "/app" "hello.txt") =
      some (.bytes (utf8Encode [104, 105, 10])) := by
  refine ⟨by decide, by decide, by decide, by decide, by decide, ?_⟩
  obtain ⟨c, hc, hg⟩ := c1_amended "/app" c1wFs [("hello.txt", c1val)] "hello.txt" c1val
    (by decide) (by decide) (by decide) (by decide) (by decide) (by decide)
  have e : decodeValue c1val = some [104, 105, 10] := by decide
  rw [hc] at e
  injection e with e'
  subst e'
  exact hg

/-- Claim C2 (counterexample): the round-trip claim fails as stated.  With
the text T = x, the manifest value under the key "_write_files.py" is
exactly base64_encode(utf8_encode(T)), the run succeeds, yet afterwards no
file exists at that key's path (cleanup deleted it), so the file does not
contain T. -/
theorem c2_counterexample :
    [101, 65, 61, 61] = b64encode (utf8Encode [120]) ∧
    (run "/app" c2cexFs).outcome = .ok ∧
    getF (run "/app" c2cexFs).fs.files (joinP "/app" "_write_files.py") = none := by
  refine ⟨by decide, by decide, by decide⟩

/-- Claim C2 (amended): for every UTF-8 text T and key k other than
"_files_data.json" and "_write_files.py", if the manifest value under k is
base64_encode(utf8_encode(T)), then after a successful run the file written
for k holds exactly the UTF-8 bytes of T (base64 decoding inverts base64
encoding through the write path). -/
theorem c2_amended (base : String) (fs : FS) (m : List (String × List Nat)) (k : String)
    (t : List Nat)
    (hm : getF fs.files (manifestPath base) = some (.jsonObj m))
    (hnd : (m.map Prod.fst).Nodup)
    (hok : (run base fs).outcome = .ok)
    (hmem : (k, b64encode (utf8Encode t)) ∈ m)
    (ht : ∀ n ∈ t, ValidCp n)
    (hk1 : k ≠ "_files_data.json") (hk2 : k ≠ "_write_files.py") :
    getF (run base fs).fs.files (joinP base k) = some (.bytes (utf8Encode t)) := by
  obtain ⟨m', hm', hL, hfsd, hfsf, htr⟩ := run_ok_shape base fs hok
  rw [hm] at hm'
  injection hm' with h1
  injection h1 with h2
  subst h2
  obtain ⟨c, hc, hg⟩ := writeLoop_ok_getF base m fs hL (paths_nodup base m hnd) k
    (b64encode (utf8Encode t)) hmem
  rw [decodeValue_encode t ht] at hc
  injection hc with hct
  subst hct
  have ha : ¬scriptPath base = joinP base k := fun h => hk2 (joinP_inj base _ _ h).symm
  have hb : ¬manifestPath base = joinP base k := fun h => hk1 (joinP_inj base _ _ h).symm
  rw [hfsf, getF_delF, if_neg ha, getF_delF, if_neg hb]
  exact hg

/-- Claim C3: for every manifest entry of a successful run, the per-file
stdout line reports exactly the number of newline characters (code point 10)
in the entry's decoded content. -/
theorem c3_newline_count (base : String) (fs : FS) (m : List (String × List Nat))
    (k : String) (v : List Nat)
    (hm : getF fs.files (manifestPath base) = some (.jsonObj m))
    (hok : (run base fs).outcome = .ok)
    (hmem : (k, v) ∈ m) :
    ∃ content, decodeValue v = some content ∧
      Event.out ("Written: " ++ k ++ " (" ++ toString (List.count 10 content) ++ " lines)")
        ∈ (run base fs).trace := by
  obtain ⟨m', hm', hL, hfsd, hfsf, htr⟩ := run_ok_shape base fs hok
  rw [hm] at hm'
  injection hm' with h1
  injection h1 with h2
  subst h2
  obtain ⟨c, hc, hw, ho⟩ := writeLoop_ok_mem base m fs hL k v hmem
  refine ⟨c, hc, ?_⟩
  rw [htr]
  exact List.mem_append_left _ ho

theorem c3_witness :
    getF c3wFs.files (manifestPath "/app") = some (.jsonObj [("f.txt", c3val)]) ∧
    (run "/app" c3wFs).outcome = .ok ∧
    ("f.txt", c3val) ∈ [("f.txt", c3val)] ∧
    Event.out "Written: f.txt (2 lines)" ∈ (run "/app" c3wFs).trace ∧
    stdoutOf (run "/app" c3wFs).trace = ["Written: f.txt (2 lines)", "Cleanup done"] ∧
    stdoutOf (run "/app" c3wFs2).trace = ["Written: g.txt (3 lines)", "Cleanup done"] := by
  refine ⟨by decide, by decide, by decide, ?_, by decide, by decide⟩
  obtain ⟨c, hc, ho⟩ := c3_newline_count "/app" c3wFs [("f.txt", c3val)] "f.txt" c3val
    (by decide) (by decide) (by decide)
  have e : decodeValue c3val = some [97, 10, 98, 10, 99] := by decide
  rw [hc] at e
  injection e with e'
  subst e'
  have hs : ("Written: " ++ "f.txt" ++ " (" ++
      toString (List.count 10 [97, 10, 98, 10, 99]) ++ " lines)") =
      "Written: f.txt (2 lines)" := by decide
  rw [hs] at ho
  exact ho

/-- Claim C4: if decoding the first failing manifest value fails (base64 or
UTF-8), the run aborts at that entry with a DecodeError: files written for
earlier entries keep their decoded content, the failing and later entries'
paths are untouched, the manifest file still exists, no file is removed,
and the final Cleanup done line is never printed. -/
theorem c4_decode_failure (base : String) (fs : FS) (pre post : List (String × List Nat))
    (k : String) (v : List Nat)
    (hm : getF fs.files (manifestPath base) = some (.jsonObj (pre ++ (k, v) :: post)))
    (hnd : ((pre ++ (k, v) :: post).map Prod.fst).Nodup)
    (hpre : ∀ en ∈ pre, (∃ c, decodeValue en.2 = some c) ∧ joinP base en.1 ∉ fs.dirs ∧
      parentDir (joinP base en.1) ∈ fs.dirs)
    (hv : decodeValue v = none) :
    (run base fs).outcome = .err (.decodeError k) ∧
    (∀ en ∈ pre, ∃ c, decodeValue en.2 = some c ∧
      getF (run base fs).fs.files (joinP base en.1) = some (.bytes (utf8Encode c))) ∧
    getF (run base fs).fs.files (joinP base k) = getF fs.files (joinP base k) ∧
    (∀ en ∈ post, getF (run base fs).fs.files (joinP base en.1) =
      getF fs.files (joinP base en.1)) ∧
    (getF (run base fs).fs.files (manifestPath base)).isSome ∧
    (∀ p, Event.removeFile p ∉ (run base fs).trace) ∧
    Event.out "Cleanup done" ∉ (run base fs).trace :=
  run_abort_at base fs pre post k v (.decodeError k) hm hnd hpre (by simp only [writeLoop, hv])

theorem c4_witness :
    decodeValue [103, 65, 61, 61] = none ∧
    (run "/app" c4wFs).outcome = .err (.decodeError "bad.txt") ∧
    getF (run "/app" c4wFs).fs.files (joinP "/app" "good.txt") =
      some (.bytes (utf8Encode [111, 107])) ∧
    getF (run "/app" c4wFs).fs.files (joinP "/app" "bad.txt") =
      getF c4wFs.files (joinP "/app" "bad.txt") ∧
    (getF (run "/app" c4wFs).fs.files (manifestPath "/app")).isSome ∧
    Event.removeFile (manifestPath "/app") ∉ (run "/app" c4wFs).trace ∧
    Event.out "Cleanup done" ∉ (run "/app" c4wFs).trace := by
  have h := c4_decode_failure "/app" c4wFs [("good.txt", c4good)] [] "bad.txt"
    [103, 65, 61, 61] (by decide) (by decide)
    (by
      intro en hen
      rw [List.mem_singleton] at hen
      subst hen
      exact ⟨⟨[111, 107], by decide⟩, by decide, by decide⟩)
    (by decide)
  refine ⟨by decide, h.1, ?_, h.2.2.1, h.2.2.2.2.1,
    h.2.2.2.2.2.1 (manifestPath "/app"), h.2.2.2.2.2.2⟩
  obtain ⟨c, hc, hg⟩ := h.2.1 ("good.txt", c4good) (by decide)
  have e : decodeValue c4good = some [111, 107] := by decide
  rw [hc] at e
  injection e with e'
  subst e'
  exact hg

/-- Claim C5: after a successful run, the manifest file and the script's own
file are gone, and they were each removed exactly once, at the very end of
the trace, right before the final Cleanup done line. -/
theorem c5_cleanup (base : String) (fs : FS) (hok : (run base fs).outcome = .ok) :
    getF (run base fs).fs.files (manifestPath base) = none ∧
    getF (run base fs).fs.files (scriptPath base) = none ∧
    ∃ tr0, (run base fs).trace = tr0 ++ [Event.removeFile (manifestPath base),
      Event.removeFile (scriptPath base), Event.out "Cleanup done"] ∧
      ∀ p, Event.removeFile p ∉ tr0 := by
  obtain ⟨m, hm, hL, hfsd, hfsf, htr⟩ := run_ok_shape base fs hok
  refine ⟨?_, ?_, (writeLoop base m fs).tr, htr, fun p => writeLoop_no_remove base m p fs⟩
  · rw [hfsf, getF_delF, if_neg fun h => manifestPath_ne_scriptPath base h.symm,
      getF_delF, if_pos rfl]
  · rw [hfsf, getF_delF, if_pos rfl]

theorem c5_witness :
    (run "/app" c5wFs).outcome = .ok ∧
    getF (run "/app" c5wFs).fs.files (manifestPath "/app") = none ∧
    getF (run "/app" c5wFs).fs.files (scriptPath "/app") = none ∧
    (run "/app" c5wFs).trace =
      [Event.writeFile (joinP "/app" "c.txt") [119], Event.out "Written: c.txt (0 lines)",
        Event.removeFile (manifestPath "/app"), Event.removeFile (scriptPath "/app"),
        Event.out "Cleanup done"] := by
  have h := c5_cleanup "/app" c5wFs (by decide)
  exact ⟨by decide, h.1, h.2.1, by decide⟩

/-- Claim C6: ordering of side effects.  The manifest is removed only after
every manifest entry's file has been written; the script's own file is
removed only after the manifest; the Cleanup done line is printed only after
both removals. -/
theorem c6_ordering (base : String) (fs : FS) (m : List (String × List Nat))
    (hm : getF fs.files (manifestPath base) = some (.jsonObj m)) :
    (Event.removeFile (manifestPath base) ∈ (run base fs).trace →
      ∃ tr0 tr1, (run base fs).trace = tr0 ++ Event.removeFile (manifestPath base) :: tr1 ∧
        ∀ en ∈ m, ∃ c, decodeValue en.2 = some c ∧
          Event.writeFile (joinP base en.1) (utf8Encode c) ∈ tr0) ∧
    (Event.removeFile (scriptPath base) ∈ (run base fs).trace →
      ∃ tr0 tr1, (run base fs).trace = tr0 ++ Event.removeFile (scriptPath base) :: tr1 ∧
        Event.removeFile (manifestPath base) ∈ tr0) ∧
    (Event.out "Cleanup done" ∈ (run base fs).trace →
      ∃ tr0, (run base fs).trace = tr0 ++ [Event.out "Cleanup done"] ∧
        Event.removeFile (manifestPath base) ∈ tr0 ∧
        Event.removeFile (scriptPath base) ∈ tr0) := by
  cases hL : (writeLoop base m fs).err with
  | some e =>
    have htr : (run base fs).trace = (writeLoop base m fs).tr := by
      rw [run_of_loopErr base fs m e hm hL]
    refine ⟨?_, ?_, ?_⟩
    · intro hmem
      rw [htr] at hmem
      exact absurd hmem (writeLoop_no_remove base m _ fs)
    · intro hmem
      rw [htr] at hmem
      exact absurd hmem (writeLoop_no_remove base m _ fs)
    · intro hmem
      rw [htr] at hmem
      obtain ⟨k0, c0, hk0⟩ := writeLoop_out_shape base m _ fs hmem
      exact absurd hk0.symm (writtenLine_ne_cleanup k0 c0)
  | none =>
    have hpres : (getF (writeLoop base m fs).fs.files (manifestPath base)).isSome :=
      writeLoop_isSome base m _ fs (by rw [hm]; rfl)
    obtain ⟨w1, hw1⟩ := Option.isSome_iff_exists.mp hpres
    cases hs : getF (delF (writeLoop base m fs).fs.files (manifestPath base))
        (scriptPath base) with
    | none =>
      have htr : (run base fs).trace =
          (writeLoop base m fs).tr ++ [Event.removeFile (manifestPath base)] := by
        simp only [run, hm, hL, hw1, hs]
      refine ⟨?_, ?_, ?_⟩
      · intro _
        refine ⟨(writeLoop base m fs).tr, [], htr, ?_⟩
        intro en hen
        obtain ⟨c, hc, hwr, _⟩ := writeLoop_ok_mem base m fs hL en.1 en.2 hen
        exact ⟨c, hc, hwr⟩
      · intro hmem
        rw [htr] at hmem
        rcases List.mem_append.mp hmem with h1 | h1
        · exact absurd h1 (writeLoop_no_remove base m _ fs)
        · rw [List.mem_singleton] at h1
          injection h1 with h2
          exact absurd h2.symm (manifestPath_ne_scriptPath base)
      · intro hmem
        rw [htr] at hmem
        rcases List.mem_append.mp hmem with h1 | h1
        · obtain ⟨k0, c0, hk0⟩ := writeLoop_out_shape base m _ fs h1
          exact absurd hk0.symm (writtenLine_ne_cleanup k0 c0)
        · rw [List.mem_singleton] at h1
          exact absurd h1 (by simp)
    | some w2 =>
      have htr : (run base fs).trace = (writeLoop base m fs).tr ++
          [Event.removeFile (manifestPath base), Event.removeFile (scriptPath base),
            Event.out "Cleanup done"] := by
        simp only [run, hm, hL, hw1, hs]
      refine ⟨?_, ?_, ?_⟩
      · intro _
        refine ⟨(writeLoop base m fs).tr,
          [Event.removeFile (scriptPath base), Event.out "Cleanup done"], htr, ?_⟩
        intro en hen
        obtain ⟨c, hc, hwr, _⟩ := writeLoop_ok_mem base m fs hL en.1 en.2 hen
        exact ⟨c, hc, hwr⟩
      · intro _
        refine ⟨(writeLoop base m fs).tr ++ [Event.removeFile (manifestPath base)],
          [Event.out "Cleanup done"], ?_, List.mem_append_right _ (by simp)⟩
        rw [htr]
        simp
      · intro _
        refine ⟨(writeLoop base m fs).tr ++
          [Event.removeFile (manifestPath base), Event.removeFile (scriptPath base)],
          ?_, ?_, ?_⟩
        · rw [htr]
          simp
        · exact List.mem_append_right _ (by simp)
        · exact List.mem_append_right _ (by simp)

theorem c6_witness :
    Event.out "Cleanup done" ∈ (run "/app" c6wFs).trace ∧
    (run "/app" c6wFs).trace = c6tr0 ++ [Event.out "Cleanup done"] ∧
    Event.removeFile (manifestPath "/app") ∈ c6tr0 ∧
    Event.removeFile (scriptPath "/app") ∈ c6tr0 := by
  obtain ⟨tr0, htr, h1, h2⟩ :=
    (c6_ordering "/app" c6wFs [("h.txt", c6v)] (by decide)).2.2 (by decide)
  have h3 : c6tr0 ++ [Event.out "Cleanup done"] = tr0 ++ [Event.out "Cleanup done"] := by
    rw [← htr]
    decide
  have he : tr0 = c6tr0 := (List.append_cancel_right h3).symm
  subst he
  exact ⟨by decide, htr, h1, h2⟩

/-- Claim C7: if the manifest file is absent, the run fails with
ManifestNotFound leaving the filesystem untouched and producing no events;
consequently a second invocation right after a successful run fails the
same way, because the first run deleted the manifest. -/
theorem c7_manifest_not_found (base : String) (fs : FS) :
    (getF fs.files (manifestPath base) = none →
      run base fs = ⟨fs, [], .err .manifestNotFound⟩) ∧
    ((run base fs).outcome = .ok →
      run base (run base fs).fs = ⟨(run base fs).fs, [], .err .manifestNotFound⟩) := by
  have habs : ∀ g : FS, getF g.files (manifestPath base) = none →
      run base g = ⟨g, [], .err .manifestNotFound⟩ := by
    intro g hg
    simp only [run, hg]
  refine ⟨habs fs, ?_⟩
  intro hok
  obtain ⟨m, hm, hL, hfsd, hfsf, htr⟩ := run_ok_shape base fs hok
  refine habs _ ?_
  rw [hfsf, getF_delF, if_neg fun h => manifestPath_ne_scriptPath base h.symm, getF_delF,
    if_pos rfl]

theorem c7_witness :
    getF c7aFs.files (manifestPath "/app") = none ∧
    run "/app" c7aFs = ⟨c7aFs, [], .err .manifestNotFound⟩ ∧
    (run "/app" c7bFs).outcome = .ok ∧
    run "/app" (run "/app" c7bFs).fs = ⟨(run "/app" c7bFs).fs, [], .err .manifestNotFound⟩ :=
  ⟨by decide, (c7_manifest_not_found "/app" c7aFs).1 (by decide), by decide,
    (c7_manifest_not_found "/app" c7bFs).2 (by decide)⟩

/-- Claim C8: entries are processed in the manifest's iteration order.  On a
successful run the whole trace is the per-entry write and print events in
manifest order followed by the two removals and the final line, and the
stdout lines are the per-file lines in that same order followed by Cleanup
done. -/
theorem c8_iteration_order (base : String) (fs : FS) (m : List (String × List Nat))
    (hm : getF fs.files (manifestPath base) = some (.jsonObj m))
    (hok : (run base fs).outcome = .ok) :
    ∃ cs, List.Forall₂ (fun en c => decodeValue en.2 = some c) m cs ∧
      (run base fs).trace =
        (List.zipWith (fun en c =>
          [Event.writeFile (joinP base en.1) (utf8Encode c), Event.out (writtenLine en.1 c)])
          m cs).flatten ++
        [Event.removeFile (manifestPath base), Event.removeFile (scriptPath base),
          Event.out "Cleanup done"] ∧
      stdoutOf (run base fs).trace =
        List.zipWith (fun en c => writtenLine en.1 c) m cs ++ ["Cleanup done"] := by
  obtain ⟨m', hm', hL, hfsd, hfsf, htr⟩ := run_ok_shape base fs hok
  rw [hm] at hm'
  injection hm' with h1
  injection h1 with h2
  subst h2
  obtain ⟨cs, hF, htr'⟩ := writeLoop_ok_trace base m fs hL
  refine ⟨cs, hF, ?_, ?_⟩
  · rw [htr, htr']
  · rw [htr, stdoutOf_append, htr', stdoutOf_zip_join base m cs]
    rfl

theorem c8_witness :
    (run "/app" c8wFs).outcome = .ok ∧
    stdoutOf (run "/app" c8wFs).trace =
      ["Written: a.txt (0 lines)", "Written: b.txt (2 lines)", "Cleanup done"] ∧
    getF (run "/app" c8wFs).fs.files (joinP "/app" "a.txt") = some (.bytes [120]) ∧
    getF (run "/app" c8wFs).fs.files (joinP "/app" "b.txt") =
      some (.bytes [121, 10, 122, 10]) := by
  refine ⟨by decide, ?_, by decide, by decide⟩
  obtain ⟨cs, hF, htr, hout⟩ := c8_iteration_order "/app" c8wFs
    [("a.txt", c8v1), ("b.txt", c8v2)] (by decide) (by decide)
  cases hF with
  | cons hd1 hF1 =>
    cases hF1 with
    | cons hd2 hF2 =>
      cases hF2
      have e1 : decodeValue c8v1 = some [120] := by decide
      rw [hd1] at e1
      injection e1 with e1'
      subst e1'
      have e2 : decodeValue c8v2 = some [121, 10, 122, 10] := by decide
      rw [hd2] at e2
      injection e2 with e2'
      subst e2'
      rw [hout]
      decide

/-- Claim C9: the Materializer does not create missing intermediate
directories.  If an entry's destination parent directory does not exist,
that entry's write fails with a WriteError and the run aborts there, with
the same no-rollback consequences as a decode failure: earlier files
remain, the failing and later paths are untouched, the manifest still
exists, nothing is removed, and Cleanup done is never printed. -/
theorem c9_no_mkdir (base : String) (fs : FS) (pre post : List (String × List Nat))
    (k : String) (v : List Nat) (c : List Nat)
    (hm : getF fs.files (manifestPath base) = some (.jsonObj (pre ++ (k, v) :: post)))
    (hnd : ((pre ++ (k, v) :: post).map Prod.fst).Nodup)
    (hpre : ∀ en ∈ pre, (∃ c0, decodeValue en.2 = some c0) ∧ joinP base en.1 ∉ fs.dirs ∧
      parentDir (joinP base en.1) ∈ fs.dirs)
    (hc : decodeValue v = some c)
    (hpd : parentDir (joinP base k) ∉ fs.dirs) :
    (run base fs).outcome = .err (.writeError k) ∧
    (∀ en ∈ pre, ∃ c0, decodeValue en.2 = some c0 ∧
      getF (run base fs).fs.files (joinP base en.1) = some (.bytes (utf8Encode c0))) ∧
    getF (run base fs).fs.files (joinP base k) = getF fs.files (joinP base k) ∧
    (∀ en ∈ post, getF (run base fs).fs.files (joinP base en.1) =
      getF fs.files (joinP base en.1)) ∧
    (getF (run base fs).fs.files (manifestPath base)).isSome ∧
    (∀ p, Event.removeFile p ∉ (run base fs).trace) ∧
    Event.out "Cleanup done" ∉ (run base fs).trace := by
  refine run_abort_at base fs pre post k v (.writeError k) hm hnd hpre ?_
  have hd : (writeLoop base pre fs).fs.dirs = fs.dirs := writeLoop_dirs base pre fs
  simp only [writeLoop, hc]
  rw [if_pos (Or.inr (by rw [hd]; exact hpd))]

theorem c9_witness :
    decodeValue c9v = some [120] ∧
    parentDir (joinP "/app" "sub/f.txt") = "/app/sub" ∧
    parentDir (joinP "/app" "sub/f.txt") ∉ c9wFs.dirs ∧
    (run "/app" c9wFs).outcome = .err (.writeError "sub/f.txt") ∧
    getF (run "/app" c9wFs).fs.files (joinP "/app" "sub/f.txt") =
      getF c9wFs.files (joinP "/app" "sub/f.txt") ∧
    (getF (run "/app" c9wFs).fs.files (manifestPath "/app")).isSome ∧
    Event.removeFile (manifestPath "/app") ∉ (run "/app" c9wFs).trace ∧
    Event.out "Cleanup done" ∉ (run "/app" c9wFs).trace := by
  have h := c9_no_mkdir "/app" c9wFs [] [] "sub/f.txt" c9v [120] (by decide) (by decide)
    (by intro en hen; exact absurd hen (List.not_mem_nil en)) (by decide) (by decide)
  exact ⟨by decide, by decide, by decide, h.1, h.2.2.1, h.2.2.2.2.1,
    h.2.2.2.2.2.1 (manifestPath "/app"), h.2.2.2.2.2.2⟩

/-- Claim C10 (implicit): the cleanup step removes the fixed paths
base/_files_data.json and base/_write_files.py regardless of the manifest's
contents.  After any successful run those two paths hold no file, so a
manifest entry keyed "_files_data.json" or "_write_files.py" is written
during the run but does not survive it. -/
theorem c10_fixed_cleanup (base : String) (fs : FS) (m : List (String × List Nat))
    (hm : getF fs.files (manifestPath base) = some (.jsonObj m))
    (hok : (run base fs).outcome = .ok) :
    getF (run base fs).fs.files (joinP base "_files_data.json") = none ∧
    getF (run base fs).fs.files (joinP base "_write_files.py") = none ∧
    (∀ v, ("_files_data.json", v) ∈ m → ∃ c, decodeValue v = some c ∧
      Event.writeFile (joinP base "_files_data.json") (utf8Encode c)
        ∈ (run base fs).trace) ∧
    (∀ v, ("_write_files.py", v) ∈ m → ∃ c, decodeValue v = some c ∧
      Event.writeFile (joinP base "_write_files.py") (utf8Encode c)
        ∈ (run base fs).trace) := by
  obtain ⟨m', hm', hL, hfsd, hfsf, htr⟩ := run_ok_shape base fs hok
  rw [hm] at hm'
  injection hm' with h1
  injection h1 with h2
  subst h2
  refine ⟨?_, ?_, ?_, ?_⟩
  · rw [hfsf, getF_delF, if_neg fun h => manifestPath_ne_scriptPath base h.symm,
      getF_delF,
      if_pos (show manifestPath base = joinP base "_files_data.json" from rfl)]
  · rw [hfsf, getF_delF,
      if_pos (show scriptPath base = joinP base "_write_files.py" from rfl)]
  · intro v hv
    obtain ⟨c, hc, hwr, _⟩ := writeLoop_ok_mem base m fs hL "_files_data.json" v hv
    exact ⟨c, hc, by rw [htr]; exact List.mem_append_left _ hwr⟩
  · intro v hv
    obtain ⟨c, hc, hwr, _⟩ := writeLoop_ok_mem base m fs hL "_write_files.py" v hv
    exact ⟨c, hc, by rw [htr]; exact List.mem_append_left _ hwr⟩

theorem c10_witness :
    (run "/app" c10wFs).outcome = .ok ∧
    getF (run "/app" c10wFs).fs.files (joinP "/app" "_files_data.json") = none ∧
    getF (run "/app" c10wFs).fs.files (joinP "/app" "_write_files.py") = none ∧
    Event.writeFile (joinP "/app" "_files_data.json") [120] ∈ (run "/app" c10wFs).trace ∧
    Event.writeFile (joinP "/app" "_write_files.py") [120] ∈ (run "/app" c10wFs).trace ∧
    getF (run "/app" c10wFs).fs.files (joinP "/app" "x.txt") = some (.bytes [104]) := by
  have h := c10_fixed_cleanup "/app" c10wFs
    [("x.txt", b64encode (utf8Encode [104])), ("_files_data.json", [101, 65, 61, 61]),
      ("_write_files.py", [101, 65, 61, 61])] (by decide) (by decide)
  refine ⟨by decide, h.1, h.2.1, ?_, ?_, by decide⟩
  · obtain ⟨c, hc, hmem⟩ := h.2.2.1 [101, 65, 61, 61] (by decide)
    have e : decodeValue [101, 65, 61, 61] = some [120] := by decide
    rw [hc] at e
    injection e with e'
    subst e'
    exact hmem
  · obtain ⟨c, hc, hmem⟩ := h.2.2.2 [101, 65, 61, 61] (by decide)
    have e : decodeValue [101, 65, 61, 61] = some [120] := by decide
    rw [hc] at e
    injection e with e'
    subst e'
    exact hmem

theorem c2_witness :
    getF c2wFs.files (manifestPath "/app") =
      some (.jsonObj [("a.txt", b64encode (utf8Encode c2txt))]) ∧
    (run "/app" c2wFs).outcome = .ok ∧
    "a.txt" ≠ "_files_data.json" ∧
    "a.txt" ≠ "_write_files.py" ∧
    getF (run "/app" c2wFs).fs.files (joinP "/app" "a.txt") =
      some (.bytes (utf8Encode c2txt)) :=
  ⟨by decide, by decide, by decide, by decide,
    c2_amended "/app" c2wFs [("a.txt", b64encode (utf8Encode c2txt))] "a.txt" c2txt
      (by decide) (by decide) (by decide) (by decide) (by decide) (by decide) (by decide)⟩

end Wisp
